import Mathlib

/-!
Verification of the terminator autologger plugin (src/autologger.py).

The Python source is shallowly embedded: Python strings are modelled as
lists of Unicode code points (`PyStr`), the string builtins used by the
plugin (`strip`, `rstrip`, `startswith`, `endswith`, `in`, `split`,
`rsplit`, `isdigit`, slicing) are given executable Lean counterparts, and
each method of the `AutoLogger` class that the claims touch becomes a pure
Lean function, with the reads from the VTE widget and the outcomes of
I/O-performing calls supplied as explicit inputs (oracles).

A note on the source text: the literals in `autologger.py` are doubly
encoded UTF-8 (mojibake).  For example the Kali prompt marker appears in
the file as the seven characters U+00E2 U+201D U+201D U+00E2 U+201D U+20AC
and the number sign, not as the three box-drawing characters of a real
prompt.  The embedding reproduces the literals exactly as they occur in
the file, spelling the non-ASCII characters with `Char.ofNat`.
-/

namespace Autolog

/-- A Python `str` value, as the list of its Unicode code points. -/
abbrev PyStr := List Char

/-- Turn an ASCII Lean string literal into the `PyStr` model. -/
def toPy (s : String) : PyStr := s.toList

/-- The characters removed by Python `str.strip()` with no argument, as
far as the plugin is concerned (space, tab, newline, carriage return,
vertical tab, form feed); other Unicode whitespace never appears in the
strings the claims are about. -/
def pyIsSpace (c : Char) : Bool :=
  c = ' ' || c = '\t' || c = '\n' || c = '\r' || c = Char.ofNat 11 || c = Char.ofNat 12

/-- Python `str.lstrip()`. -/
def pyLStrip (s : PyStr) : PyStr := s.dropWhile pyIsSpace

/-- Python `str.rstrip()`. -/
def pyRStrip (s : PyStr) : PyStr := (s.reverse.dropWhile pyIsSpace).reverse

/-- Python `str.strip()`. -/
def pyStrip (s : PyStr) : PyStr := pyRStrip (pyLStrip s)

/-- Python `str.isdigit()` restricted to the ASCII digits that occur in
terminal exit codes: true iff the string is nonempty and all digits. -/
def pyIsDigitStr (s : PyStr) : Bool := !s.isEmpty && s.all Char.isDigit

/-- Python substring containment `sub in s`. -/
def pyIn (sub : PyStr) : PyStr → Bool
  | [] => sub.isEmpty
  | c :: cs => sub.isPrefixOf (c :: cs) || pyIn sub cs

/-- Python `s.split(sep, 1)[-1]` for a separator known to occur in `s`:
everything after the first occurrence of `sep`. -/
def afterFirstOcc (sep : PyStr) : PyStr → PyStr
  | [] => []
  | c :: cs => if sep.isPrefixOf (c :: cs) then (c :: cs).drop sep.length else afterFirstOcc sep cs

/-- Python `s.split(sep, 1)[-1]`: the text after the first occurrence of
`sep`, or all of `s` when `sep` does not occur. -/
def pySplitOnceLast (sep s : PyStr) : PyStr :=
  if pyIn sep s then afterFirstOcc sep s else s

/-- Python `s.rsplit(sep, 1)`: `some (before, after)` around the last
occurrence of `sep`, or `none` when `sep` does not occur (in which case
`rsplit` returns the one-element list `[s]`). -/
def pyRSplitOnce (sep : PyStr) : PyStr → Option (PyStr × PyStr)
  | [] => none
  | c :: cs =>
    match pyRSplitOnce sep cs with
    | some (a, b) => some (c :: a, b)
    | none => if sep.isPrefixOf (c :: cs) then some ([], (c :: cs).drop sep.length) else none

/-- Python `s.split('\n')`. -/
def splitNl : PyStr → List PyStr
  | [] => [[]]
  | c :: cs =>
    match splitNl cs with
    | h :: t => if c = '\n' then [] :: h :: t else (c :: h) :: t
    | [] => [[c]]

/-- Python `'\n'.join(parts)`. -/
def joinNl (parts : List PyStr) : PyStr := List.intercalate [Char.ofNat 10] parts

/-! ### The literal strings of `autologger.py`

These spell out, code point by code point, the (doubly encoded) string
literals that appear in the source file. -/

/-- The literal written as the Kali bottom prompt marker in the source
(seven characters; in the file it is the mojibake of the three-character
box-drawing marker). -/
def lPromptM : PyStr :=
  [Char.ofNat 0xE2, Char.ofNat 0x201D, Char.ofNat 0x201D,
   Char.ofNat 0xE2, Char.ofNat 0x201D, Char.ofNat 0x20AC, '#']

/-- The literal written as the Kali top prompt marker in the source
(nine characters). -/
def boxTopM : PyStr :=
  [Char.ofNat 0xE2, Char.ofNat 0x201D, Char.ofNat 0x152,
   Char.ofNat 0xE2, Char.ofNat 0x201D, Char.ofNat 0x20AC,
   Char.ofNat 0xE2, Char.ofNat 0x201D, Char.ofNat 0x20AC]

/-- The literal written as the skull glyph in the source (four
characters). -/
def skullM : PyStr :=
  [Char.ofNat 0xF0, Char.ofNat 0x178, Char.ofNat 0x2019, Char.ofNat 0x20AC]

/-- The characters of the regex character class in the error-code pattern
of `_is_empty_prompt`, exactly as written in the source. -/
def errGlyphClass : PyStr :=
  [Char.ofNat 0xE2, Char.ofNat 0xA8, Char.ofNat 0xAF,
   Char.ofNat 0xE2, Char.ofNat 0x153, Char.ofNat 0x2014,
   Char.ofNat 0xC3, Char.ofNat 0x2014,
   Char.ofNat 0xE2, Char.ofNat 0x153, Char.ofNat 0x2DC,
   Char.ofNat 0xE2, Char.ofNat 0x152]

/-- The suffix literal written as a dollar sign and a space. -/
def dollarSp : PyStr := ['$', ' ']

/-- The suffix literal written as a number sign and a space. -/
def hashSp : PyStr := ['#', ' ']

/-- The reserved excluded command name literal. -/
def ctxM : PyStr := toPy "context"

/-- The session banner marker literal. -/
def eqsM : PyStr := toPy "==="

/-- `AutoLogger._looks_like_prompt`. -/
def looksLikePrompt (lineContent : PyStr) : Bool :=
  if lineContent.isEmpty then false
  else
    let line := pyStrip lineContent
    lPromptM.isPrefixOf line ||
    dollarSp.isSuffixOf line ||
    hashSp.isSuffixOf line ||
    boxTopM.isPrefixOf line ||
    (pyIn boxTopM line && pyIn skullM line)

/-- `AutoLogger._is_partial_command`. -/
def isPartialCommand (lineContent : PyStr) : Bool :=
  if lineContent.isEmpty then true
  else if looksLikePrompt lineContent then false
  else
    let stripped := pyStrip lineContent
    if stripped.length ≤ 2 && !pyIsDigitStr stripped then true
    else if ['_'].isSuffixOf stripped || ['|'].isSuffixOf stripped then true
    else false

/-- The regex match `re.match(error_pattern, t)` where the pattern is
written in the source as caret, whitespace star, digit plus, whitespace
star, the glyph character class, whitespace star, dollar.  All parts of
the pattern are over disjoint character sets, so greedy left-to-right
matching is deterministic. -/
def errPat (t : PyStr) : Bool :=
  let afterSp := t.dropWhile pyIsSpace
  let digits := afterSp.takeWhile Char.isDigit
  if digits.isEmpty then false
  else
    match (afterSp.dropWhile Char.isDigit).dropWhile pyIsSpace with
    | c :: rest => errGlyphClass.contains c && rest.all pyIsSpace
    | [] => false

/-- `AutoLogger._is_empty_prompt`. -/
def isEmptyPrompt (lineContent : PyStr) : Bool :=
  if lineContent.isEmpty then true
  else
    let stripped := pyStrip lineContent
    if stripped = lPromptM then true
    else if lPromptM.isPrefixOf stripped &&
            (let afterPrompt := pyStrip (stripped.drop 3)
             afterPrompt.isEmpty || errPat afterPrompt) then true
    else
      -- the loop over the two suffix literals; each iteration can only
      -- return true, so the loop is the disjunction of its iterations
      (pyIn dollarSp stripped &&
        (match pyRSplitOnce dollarSp stripped with
         | some (_, a) => (pyStrip a).isEmpty || errPat (pyStrip a)
         | none => false)) ||
      (pyIn hashSp stripped &&
        (match pyRSplitOnce hashSp stripped with
         | some (_, a) => (pyStrip a).isEmpty || errPat (pyStrip a)
         | none => false))

/-- `AutoLogger._is_context_command`. -/
def isContextCommand (lineContent : PyStr) : Bool :=
  if lineContent.isEmpty then false
  else
    let stripped := pyStrip lineContent
    if looksLikePrompt stripped then
      let cmdPart :=
        if pyIn lPromptM stripped then pyStrip (pySplitOnceLast lPromptM stripped)
        else if dollarSp.isSuffixOf stripped || hashSp.isSuffixOf stripped then
          -- the for-else loop over the two suffix literals, first match wins
          if dollarSp.isSuffixOf stripped then pyStrip (stripped.take (stripped.length - 2))
          else pyStrip (stripped.take (stripped.length - 2))
        else []
      ctxM.isPrefixOf cmdPart
    else
      ctxM.isPrefixOf stripped

/-! ### The per-line filter loop of `_on_contents_changed` -/

/-- The loop body state and effect of the line filter in
`_on_contents_changed` (lines 304-332 of the source): given the
`skip_until_prompt` flag, consume the lines in order and accumulate the
kept lines, each right-stripped. -/
def filterFrom : Bool → List PyStr → List PyStr
  | _, [] => []
  | skip, line :: rest =>
    let stripped := pyStrip line
    if isContextCommand stripped then filterFrom true rest
    else if skip then
      if looksLikePrompt stripped then
        if isEmptyPrompt stripped then filterFrom false rest
        else pyRStrip line :: filterFrom false rest
      else filterFrom true rest
    else
      if !stripped.isEmpty && !eqsM.isPrefixOf stripped then
        if isEmptyPrompt stripped then filterFrom false rest
        else if isPartialCommand stripped then filterFrom false rest
        else pyRStrip line :: filterFrom false rest
      else filterFrom false rest

/-- The filter as run by `_on_contents_changed`, starting in the scanning
state. -/
def filterLines (lines : List PyStr) : List PyStr := filterFrom false lines

/-! ### Session state and the content-change handler -/

/-- The per-terminal record stored in `self.loggers` (the fields the
handler reads and writes). -/
structure LoggerInfo where
  filepath : PyStr
  sanitizedFilepath : PyStr
  lastRow : Int
  deriving DecidableEq

/-- The values the handler obtains from the VTE widget during one
invocation: the cursor position reported by `get_cursor_position` (or
`none` when the host returns nothing usable), the text of the line at the
cursor row, and the text of the range from the last logged row to the
cursor row (`_get_content` returns the empty string on any host
failure). -/
structure ContentsInput where
  cursorPos : Option (Int × Int)
  currentLine : PyStr
  rangeContent : PyStr
  deriving DecidableEq

/-- `AutoLogger._on_contents_changed` for one registered terminal: the
updated record, and the chunk handed to the two queues, if any.  The
`cursorPos` pair is `(column, row)` as returned by the widget. -/
def onContentsChanged (st : LoggerInfo) (inp : ContentsInput) : LoggerInfo × Option PyStr :=
  match inp.cursorPos with
  | none => (st, none)
  | some (_, currentRow) =>
    if currentRow ≤ st.lastRow then (st, none)
    else
      if !inp.currentLine.isEmpty && looksLikePrompt (pyStrip inp.currentLine) then
        let chunk :=
          if !inp.rangeContent.isEmpty then
            let filtered := filterLines (splitNl inp.rangeContent)
            if !filtered.isEmpty then some (joinNl filtered ++ [Char.ofNat 10]) else none
          else none
        ({ st with lastRow := currentRow }, chunk)
      else (st, none)

/-- A whole sequence of content-change invocations, keeping only the
session record. -/
def runContents (st : LoggerInfo) (inps : List ContentsInput) : LoggerInfo :=
  inps.foldl (fun s i => (onContentsChanged s i).1) st

/-! ### The bounded queues -/

/-- Both queues are created with `maxsize=1000`. -/
def queueCap : Nat := 1000

/-- One `queue.put(x, timeout=0.1)` guarded by `except queue.Full: pass`:
with no consumer draining during the wait, the put succeeds exactly when
the queue has room, and a full queue leaves the queue unchanged and
raises nothing to the caller. -/
def tryPut (q : List α) (x : α) : List α :=
  if q.length < queueCap then q ++ [x] else q

/-- The enqueue block of `_on_contents_changed`: the write-queue put and
the sanitize-queue put share one try/except, so a `Full` from the first
put skips the second put as well. -/
def putBoth (wq sq : List (PyStr × PyStr)) (fp sp chunk : PyStr) :
    List (PyStr × PyStr) × List (PyStr × PyStr) :=
  if wq.length < queueCap then
    (wq ++ [(fp, chunk)], if sq.length < queueCap then sq ++ [(chunk, sp)] else sq)
  else (wq, sq)

/-- `AutoLogger._write_to_log` for a terminal whose record is `info`
(`none` when the terminal is not registered): the new contents of the
write queue. -/
def writeToLog (info : Option LoggerInfo) (wq : List (PyStr × PyStr)) (text : PyStr) :
    List (PyStr × PyStr) :=
  if text.isEmpty || (pyStrip text).isEmpty then wq
  else
    match info with
    | none => wq
    | some i =>
      if i.filepath.isEmpty then wq
      else tryPut wq (i.filepath, pyStrip text ++ [Char.ofNat 10])

/-- One content-change invocation together with its enqueues: the session
record, the write queue and the sanitize queue afterwards. -/
def stepWithQueues (st : LoggerInfo) (wq sq : List (PyStr × PyStr)) (inp : ContentsInput) :
    LoggerInfo × List (PyStr × PyStr) × List (PyStr × PyStr) :=
  let r := onContentsChanged st inp
  match r.2 with
  | none => (r.1, wq, sq)
  | some chunk =>
    let qs := putBoth wq sq st.filepath st.sanitizedFilepath chunk
    (r.1, qs.1, qs.2)

/-! ### The raw write consumer -/

/-- Observable actions of the writer thread on the filesystem. -/
inductive WEvent where
  | openAppend (path : PyStr)
  | wrote (path content : PyStr)
  | closed (path : PyStr)
  deriving DecidableEq

/-- One iteration of the `_async_writer` try block for a well-formed item
`(p, c)`: `ofs` is the set of paths with a cached handle (the keys of
`open_files`), and the two booleans say whether the `open` call (when
attempted) and the `write`/`flush` calls raise.  The except clause closes
and drops the handle cached for `p`, if any, and nothing else. -/
def writerStep (ofs : List PyStr) (p c : PyStr) (openOk writeOk : Bool) :
    List PyStr × List WEvent :=
  if p ∈ ofs then
    if writeOk then (ofs, [.wrote p c])
    else (ofs.erase p, [.closed p])
  else
    if openOk then
      if writeOk then (ofs ++ [p], [.openAppend p, .wrote p c])
      else ((ofs ++ [p]).erase p, [.openAppend p, .closed p])
    else (ofs, [])

/-- The `_async_writer` consumer loop over the items it dequeues, with
the outcome oracle indexed by position; a `none` item is the shutdown
sentinel and breaks the loop. -/
def writerRun (ofs : List PyStr) (items : List (Option (PyStr × PyStr)))
    (orc : Nat → Bool × Bool) : List PyStr × List WEvent :=
  match items with
  | [] => (ofs, [])
  | none :: _ => (ofs, [])
  | some (p, c) :: rest =>
    if p.isEmpty || c.isEmpty then writerRun ofs rest (fun n => orc (n + 1))
    else
      let r := writerStep ofs p c (orc 0).1 (orc 0).2
      let r2 := writerRun r.1 rest (fun n => orc (n + 1))
      (r2.1, r.2 ++ r2.2)

/-! ### The sanitizer consumer -/

/-- Outcome of one external sanitizer invocation. -/
inductive SOutcome where
  | success
  | exitNonZero
  | timeout
  | spawnFail
  deriving DecidableEq

/-- What one sanitizer invocation contributes to the sanitized files:
the external process writes its redaction `san c` to the output path only
when it runs to completion in time; on a timeout, a spawn error, and on
the non-zero-exit case (where the consumer ignores the exit status and
the failed process has written nothing), no output appears.  Every
non-success outcome is swallowed by the except clause. -/
def sanitizerStep (san : PyStr → PyStr) (c p : PyStr) : SOutcome → List (PyStr × PyStr)
  | .success => [(p, san c)]
  | _ => []

/-- The `_async_sanitizer` consumer loop: the `(path, text)` writes that
reach the sanitized files, with the outcome oracle indexed by position;
a `none` item is the shutdown sentinel. -/
def sanitizerRun (san : PyStr → PyStr) (items : List (Option (PyStr × PyStr)))
    (orc : Nat → SOutcome) : List (PyStr × PyStr) :=
  match items with
  | [] => []
  | none :: _ => []
  | some (c, p) :: rest =>
    if c.isEmpty || p.isEmpty then sanitizerRun san rest (fun n => orc (n + 1))
    else sanitizerStep san c p (orc 0) ++ sanitizerRun san rest (fun n => orc (n + 1))

/-- The two consumer threads side by side: the writer events and the
sanitized-file writes produced from the two (independent) queues. -/
def pipelinesRun (ofs : List PyStr) (witems : List (Option (PyStr × PyStr)))
    (worc : Nat → Bool × Bool) (san : PyStr → PyStr)
    (sitems : List (Option (PyStr × PyStr))) (sorc : Nat → SOutcome) :
    List WEvent × List (PyStr × PyStr) :=
  ((writerRun ofs witems worc).2, sanitizerRun san sitems sorc)

/-! ### Terminal identity -/

theorem dropWhile_head_not (p : Char → Bool) (l : List Char) :
    ∀ c, (l.dropWhile p).head? = some c → p c = false := by
  induction l with
  | nil => intro c h; simp [List.dropWhile] at h
  | cons a as ih =>
    intro c h
    rw [List.dropWhile_cons] at h
    by_cases hp : p a
    · rw [if_pos hp] at h
      exact ih c h
    · rw [if_neg hp] at h
      simp only [List.head?_cons, Option.some.injEq] at h
      rw [← h]
      simpa using hp

theorem dropWhile_eq_self (p : Char → Bool) (l : List Char)
    (h : ∀ c, l.head? = some c → p c = false) : l.dropWhile p = l := by
  cases l with
  | nil => rfl
  | cons a as =>
    rw [List.dropWhile_cons, if_neg]
    simp [h a rfl]

theorem dropWhile_idem (p : Char → Bool) (l : List Char) :
    (l.dropWhile p).dropWhile p = l.dropWhile p :=
  dropWhile_eq_self p _ (dropWhile_head_not p l)

theorem pyRStrip_isPrefix (l : PyStr) : pyRStrip l <+: l := by
  have hs : l.reverse.dropWhile pyIsSpace <:+ l.reverse := List.dropWhile_suffix _
  have h2 : (l.reverse.dropWhile pyIsSpace).reverse <+: l.reverse.reverse :=
    List.reverse_prefix.2 hs
  rwa [List.reverse_reverse] at h2

theorem pyLStrip_pyRStrip_self (l : PyStr) (h : pyLStrip l = l) :
    pyLStrip (pyRStrip l) = pyRStrip l := by
  apply dropWhile_eq_self
  intro c hc
  cases hpr : pyRStrip l with
  | nil => rw [hpr] at hc; simp at hc
  | cons a as =>
    rw [hpr] at hc
    simp only [List.head?_cons, Option.some.injEq] at hc
    obtain ⟨r, hr⟩ := pyRStrip_isPrefix l
    have hl : l.head? = some a := by
      rw [← hr, hpr]; rfl
    have hda : (l.dropWhile pyIsSpace).head? = some a := by
      unfold pyLStrip at h; rw [h]; exact hl
    rw [← hc]
    exact dropWhile_head_not pyIsSpace l a hda

theorem pyRStrip_idem (l : PyStr) : pyRStrip (pyRStrip l) = pyRStrip l := by
  unfold pyRStrip
  rw [List.reverse_reverse, dropWhile_idem]

theorem pyStrip_idem (s : PyStr) : pyStrip (pyStrip s) = pyStrip s := by
  show pyRStrip (pyLStrip (pyRStrip (pyLStrip s))) = pyRStrip (pyLStrip s)
  have h1 : pyLStrip (pyLStrip s) = pyLStrip s := dropWhile_idem pyIsSpace s
  rw [pyLStrip_pyRStrip_self (pyLStrip s) h1, pyRStrip_idem]

theorem isPrefixOf_cons_ne_nil (a : Char) (pre l : PyStr)
    (h : (a :: pre).isPrefixOf l = true) : l ≠ [] := by
  cases l with
  | nil => simp [List.isPrefixOf] at h
  | cons b bs => simp

/-! ### Claim theorems -/

/-- C1.  The claim says every line whose visible text ends in a dollar
sign and a space, or a number sign and a space, is classified as a prompt
line.  The code strips the line before testing those two suffixes, so the
tests can never succeed: classic prompts ending in the two-character
suffixes are rejected, as evaluated here on two such lines. -/
theorem c1_trailing_marker_lines_not_prompts :
    looksLikePrompt (toPy "user@host:~$ ") = false ∧
    looksLikePrompt (toPy "root@kali:~# ") = false := by
  decide

theorem onContentsChanged_lastRow_mono (st : LoggerInfo) (inp : ContentsInput) :
    st.lastRow ≤ ((onContentsChanged st inp).1).lastRow := by
  unfold onContentsChanged
  cases h : inp.cursorPos with
  | none => simp
  | some p =>
    obtain ⟨c, r⟩ := p
    dsimp only
    split
    · simp
    · next hle =>
      split
      · dsimp only
        omega
      · simp

/-- C3.  The recorded last-logged row never decreases: neither in a single
content-change invocation nor across any sequence of invocations. -/
theorem c3_lastRow_monotone (st : LoggerInfo) (inp : ContentsInput)
    (inps : List ContentsInput) :
    st.lastRow ≤ ((onContentsChanged st inp).1).lastRow ∧
    st.lastRow ≤ (runContents st inps).lastRow := by
  refine ⟨onContentsChanged_lastRow_mono st inp, ?_⟩
  induction inps generalizing st with
  | nil => simp [runContents]
  | cons i is ih =>
    calc st.lastRow ≤ ((onContentsChanged st i).1).lastRow :=
          onContentsChanged_lastRow_mono st i
      _ ≤ (runContents ((onContentsChanged st i).1) is).lastRow := ih _
      _ = (runContents st (i :: is)).lastRow := by simp [runContents]

/-- C6.  A non-prompt line whose stripped text has at most two characters
and is not a bare digit string, or whose stripped text ends in an
underscore or a vertical bar, is classified as partial input; a line
classified as a prompt is never classified as partial. -/
theorem c6_partial_classification (l : PyStr) :
    (looksLikePrompt l = false →
      (((pyStrip l).length ≤ 2 ∧ pyIsDigitStr (pyStrip l) = false) ∨
        (['_'].isSuffixOf (pyStrip l) = true ∨ ['|'].isSuffixOf (pyStrip l) = true)) →
      isPartialCommand l = true) ∧
    (looksLikePrompt l = true → isPartialCommand l = false) := by
  constructor
  · intro hnp hcond
    unfold isPartialCommand
    by_cases hemp : l.isEmpty
    · simp [hemp]
    · simp only [hemp, Bool.false_eq_true, if_false, hnp]
      rcases hcond with ⟨h1, h2⟩ | h
      · have hc : ((pyStrip l).length ≤ 2 && !pyIsDigitStr (pyStrip l)) = true := by
          simp [h1, h2]
        simp [hc]
      · by_cases hc : ((pyStrip l).length ≤ 2 && !pyIsDigitStr (pyStrip l)) = true
        · simp [hc]
        · have hsuf : (['_'].isSuffixOf (pyStrip l) || ['|'].isSuffixOf (pyStrip l)) = true := by
            rcases h with h | h <;> simp [h]
          simp [hc, hsuf]
  · intro hp
    unfold isPartialCommand
    have hemp : l.isEmpty = false := by
      cases l with
      | nil => rw [looksLikePrompt] at hp; simp at hp
      | cons a as => simp
    simp [hemp, hp]

theorem c6_witness :
    isPartialCommand (toPy "l") = true ∧
    isPartialCommand (toPy "cd s_") = true ∧
    isPartialCommand (lPromptM ++ toPy " ls") = false := by
  refine ⟨?_, ?_, ?_⟩
  · exact (c6_partial_classification (toPy "l")).1 (by decide) (Or.inl (by decide))
  · exact (c6_partial_classification (toPy "cd s_")).1 (by decide) (Or.inr (Or.inl (by decide)))
  · exact (c6_partial_classification (lPromptM ++ toPy " ls")).2 (by decide)

/-- C9.  Enqueues on the two bounded queues drop the item when the queue
is full, raise nothing to the caller, leave the queue contents untouched,
and leave the session record exactly what the handler computes regardless
of queue fullness. -/
theorem c9_full_queue_drops (wq sq : List (PyStr × PyStr)) (fp sp ch : PyStr)
    (info : LoggerInfo) (text : PyStr) (st : LoggerInfo) (inp : ContentsInput) :
    (queueCap ≤ wq.length → putBoth wq sq fp sp ch = (wq, sq)) ∧
    (wq.length < queueCap → queueCap ≤ sq.length →
      putBoth wq sq fp sp ch = (wq ++ [(fp, ch)], sq)) ∧
    (queueCap ≤ wq.length → writeToLog (some info) wq text = wq) ∧
    (stepWithQueues st wq sq inp).1 = (onContentsChanged st inp).1 := by
    refine ⟨?_, ?_, ?_, ?_⟩
    · intro hfull
      unfold putBoth
      rw [if_neg (by omega)]
    · intro hroom hfull
      unfold putBoth
      rw [if_pos (by omega), if_neg (by omega)]
    · intro hfull
      unfold writeToLog
      by_cases h1 : (text.isEmpty || (pyStrip text).isEmpty) = true
      · simp [h1]
      · by_cases h2 : info.filepath.isEmpty = true
        · simp [h1, h2]
        · simp only [h1, Bool.false_eq_true, if_false, h2]
          unfold tryPut
          rw [if_neg (by omega)]
    · unfold stepWithQueues
      cases h : (onContentsChanged st inp).2 <;> simp [h]

theorem c9_witness :
    putBoth (List.replicate 1000 (toPy "p", toPy "c")) [] (toPy "f") (toPy "s") (toPy "x")
      = (List.replicate 1000 (toPy "p", toPy "c"), []) ∧
    writeToLog (some ⟨toPy "f", toPy "g", 0⟩)
      (List.replicate 1000 (toPy "p", toPy "c")) (toPy "hello")
      = List.replicate 1000 (toPy "p", toPy "c") := by
  constructor
  · exact (c9_full_queue_drops (List.replicate 1000 (toPy "p", toPy "c")) [] (toPy "f")
      (toPy "s") (toPy "x") ⟨toPy "f", toPy "g", 0⟩ (toPy "hello") ⟨toPy "f", toPy "g", 0⟩
      ⟨none, [], []⟩).1 (by simp only [queueCap, List.length_replicate]; omega)
  · exact (c9_full_queue_drops (List.replicate 1000 (toPy "p", toPy "c")) [] (toPy "f")
      (toPy "s") (toPy "x") ⟨toPy "f", toPy "g", 0⟩ (toPy "hello") ⟨toPy "f", toPy "g", 0⟩
      ⟨none, [], []⟩).2.2.1 (by simp only [queueCap, List.length_replicate]; omega)

/-- C10.  A line that is not a prompt but whose stripped text begins with
the reserved word is classified as an excluded command, so the filter
drops it and enters the skipping state. -/
theorem c10_bare_context_output_dropped (l : PyStr) (s : Bool) (rest : List PyStr)
    (hnp : looksLikePrompt (pyStrip l) = false)
    (hpre : ctxM.isPrefixOf (pyStrip l) = true) :
    isContextCommand (pyStrip l) = true ∧ filterFrom s (l :: rest) = filterFrom true rest := by
  have hne : (pyStrip l).isEmpty = false := by
    cases hsl : pyStrip l with
    | nil => rw [hsl] at hpre; simp [ctxM, toPy, List.isPrefixOf] at hpre
    | cons a as => simp
  have hctx : isContextCommand (pyStrip l) = true := by
    unfold isContextCommand
    simp only [hne, Bool.false_eq_true, if_false, pyStrip_idem, hnp]
    simpa using hpre
  refine ⟨hctx, ?_⟩
  simp only [filterFrom, hctx, if_pos]

theorem c10_witness :
    isContextCommand (pyStrip (toPy "context deadline exceeded")) = true ∧
    filterFrom false [toPy "context deadline exceeded"] = filterFrom true [] :=
  c10_bare_context_output_dropped (toPy "context deadline exceeded") false []
    (by decide) (by decide)

theorem filterFrom_skipping (pl : PyStr) (suf : List PyStr)
    (hplc : isContextCommand (pyStrip pl) = false)
    (hplp : looksLikePrompt (pyStrip pl) = true) :
    ∀ mid : List PyStr,
      (∀ m ∈ mid, isContextCommand (pyStrip m) = true ∨ looksLikePrompt (pyStrip m) = false) →
      filterFrom true (mid ++ pl :: suf) =
        (if isEmptyPrompt (pyStrip pl) = true then [] else [pyRStrip pl]) ++
          filterFrom false suf := by
  intro mid
  induction mid with
  | nil =>
    intro _
    rw [List.nil_append]
    simp only [filterFrom, hplc, Bool.false_eq_true, if_false, hplp, if_true]
    split
    · simp
    · simp
  | cons m ms ih =>
    intro hmid
    have hm := hmid m (List.mem_cons_self m ms)
    have hrest : ∀ x ∈ ms, isContextCommand (pyStrip x) = true ∨ looksLikePrompt (pyStrip x) = false :=
      fun x hx => hmid x (List.mem_cons_of_mem m hx)
    rw [List.cons_append]
    by_cases hcm : isContextCommand (pyStrip m) = true
    · simp only [filterFrom, hcm, if_true]
      exact ih hrest
    · have hpm : looksLikePrompt (pyStrip m) = false := by
        rcases hm with h | h
        · exact absurd h hcm
        · exact h
      simp only [filterFrom, hcm, Bool.false_eq_true, if_false, hpm, if_true]
      exact ih hrest

/-- C4.  A line recognized as the start of the reserved excluded command
is dropped and flips the filter into the skipping state; every following
line that is not itself a prompt (or that restarts the exclusion) is
dropped; the next prompt line that is not itself an excluded command ends
the skipping state and is included exactly when it is not an empty
prompt, after which filtering continues normally. -/
theorem c4_context_exclusion (s : Bool) (cl pl : PyStr) (mid suf : List PyStr)
    (hcl : isContextCommand (pyStrip cl) = true)
    (hmid : ∀ m ∈ mid, isContextCommand (pyStrip m) = true ∨ looksLikePrompt (pyStrip m) = false)
    (hplc : isContextCommand (pyStrip pl) = false)
    (hplp : looksLikePrompt (pyStrip pl) = true) :
    filterFrom s (cl :: (mid ++ pl :: suf)) =
      (if isEmptyPrompt (pyStrip pl) = true then [] else [pyRStrip pl]) ++
        filterFrom false suf := by
  have h1 : filterFrom s (cl :: (mid ++ pl :: suf)) = filterFrom true (mid ++ pl :: suf) := by
    simp only [filterFrom, hcl, if_true]
  rw [h1]
  exact filterFrom_skipping pl suf hplc hplp mid hmid

theorem c4_witness :
    filterFrom false ((lPromptM ++ toPy " context wipe") ::
        ([toPy "wiping the context"] ++ (lPromptM ++ toPy " ls") :: [toPy "a.txt"])) =
      (if isEmptyPrompt (pyStrip (lPromptM ++ toPy " ls")) = true then []
        else [pyRStrip (lPromptM ++ toPy " ls")]) ++ filterFrom false [toPy "a.txt"] :=
  c4_context_exclusion false (lPromptM ++ toPy " context wipe") (lPromptM ++ toPy " ls")
    [toPy "wiping the context"] [toPy "a.txt"] (by decide) (by decide) (by decide) (by decide)

/-- C7.  A sanitize item whose external invocation does not succeed is
discarded with no retry and no output, the consumer continues with the
next item, and the raw pipeline is unaffected by sanitizer outcomes. -/
theorem c7_sanitizer_failure_isolation (san : PyStr → PyStr) (c p : PyStr)
    (rest : List (Option (PyStr × PyStr))) (orc : Nat → SOutcome)
    (ofs : List PyStr) (witems : List (Option (PyStr × PyStr))) (worc : Nat → Bool × Bool)
    (sitems : List (Option (PyStr × PyStr))) (sorc1 sorc2 : Nat → SOutcome)
    (hc : c ≠ []) (hp : p ≠ []) (hfail : orc 0 ≠ SOutcome.success) :
    sanitizerRun san (some (c, p) :: rest) orc = sanitizerRun san rest (fun n => orc (n + 1)) ∧
    (pipelinesRun ofs witems worc san sitems sorc1).1 =
      (pipelinesRun ofs witems worc san sitems sorc2).1 := by
  constructor
  · have hcp : (c.isEmpty || p.isEmpty) = false := by
      simp [List.isEmpty_iff, hc, hp]
    simp only [sanitizerRun, hcp, Bool.false_eq_true, if_false]
    have hstep : sanitizerStep san c p (orc 0) = [] := by
      cases h0 : orc 0 with
      | success => exact absurd h0 hfail
      | exitNonZero => rfl
      | timeout => rfl
      | spawnFail => rfl
    rw [hstep, List.nil_append]
  · rfl

theorem c7_witness :
    sanitizerRun (fun x => x) [some (toPy "secret", toPy "out"), some (toPy "ok", toPy "out2")]
        (fun n => if n = 0 then SOutcome.timeout else SOutcome.success) =
      sanitizerRun (fun x => x) [some (toPy "ok", toPy "out2")]
        (fun n => (fun m => if m = 0 then SOutcome.timeout else SOutcome.success) (n + 1)) :=
  (c7_sanitizer_failure_isolation (fun x => x) (toPy "secret") (toPy "out")
    [some (toPy "ok", toPy "out2")]
    (fun n => if n = 0 then SOutcome.timeout else SOutcome.success)
    [] [] (fun _ => (true, true)) [] (fun _ => SOutcome.success) (fun _ => SOutcome.success)
    (by decide) (by decide) (by decide)).1

/-- C8.  When a write for an item fails, exactly the cached handle for
that item's path is closed and removed, membership of every other path in
the cache is unchanged, the consumer continues with the remaining items,
and a later well-formed item for the same path reopens the file in append
mode. -/
theorem c8_write_failure_recovery (ofs : List PyStr) (p c c2 q : PyStr)
    (rest : List (Option (PyStr × PyStr))) (orc : Nat → Bool × Bool)
    (hmem : p ∈ ofs) (hp : p ≠ []) (hc : c ≠ []) (horc : orc 0 = (true, false)) :
    writerStep ofs p c true false = (ofs.erase p, [WEvent.closed p]) ∧
    (q ≠ p → (q ∈ ofs.erase p ↔ q ∈ ofs)) ∧
    writerRun ofs (some (p, c) :: rest) orc =
      ((writerRun (ofs.erase p) rest (fun n => orc (n + 1))).1,
        WEvent.closed p :: (writerRun (ofs.erase p) rest (fun n => orc (n + 1))).2) ∧
    (∀ s : List PyStr, p ∉ s →
      writerStep s p c2 true true = (s ++ [p], [WEvent.openAppend p, WEvent.wrote p c2])) := by
  refine ⟨?_, ?_, ?_, ?_⟩
  · simp [writerStep, hmem]
  · intro hne
    exact List.mem_erase_of_ne hne
  · have hcp : (p.isEmpty || c.isEmpty) = false := by
      simp [List.isEmpty_iff, hp, hc]
    simp only [writerRun, hcp, Bool.false_eq_true, if_false, horc]
    simp [writerStep, hmem]
  · intro s hs
    simp [writerStep, hs]

theorem c8_witness :
    writerStep [toPy "f"] (toPy "f") (toPy "x") true false = ([], [WEvent.closed (toPy "f")]) ∧
    (toPy "g" ∈ ([toPy "f"] : List PyStr).erase (toPy "f") ↔ toPy "g" ∈ ([toPy "f"] : List PyStr)) ∧
    writerStep [] (toPy "f") (toPy "y") true true =
      ([toPy "f"], [WEvent.openAppend (toPy "f"), WEvent.wrote (toPy "f") (toPy "y")]) := by
  have h := c8_write_failure_recovery [toPy "f"] (toPy "f") (toPy "x") (toPy "y") (toPy "g")
    [] (fun _ => (true, false)) (by decide) (by decide) (by decide) rfl
  exact ⟨h.1, h.2.1 (by decide), h.2.2.2 [] (by decide)⟩

theorem pyStrip_eq_self (s : PyStr)
    (h1 : ∀ c, s.head? = some c → pyIsSpace c = false)
    (h2 : ∀ c, s.getLast? = some c → pyIsSpace c = false) : pyStrip s = s := by
  unfold pyStrip pyLStrip pyRStrip
  rw [dropWhile_eq_self _ _ h1, dropWhile_eq_self, List.reverse_reverse]
  intro c hc
  rw [List.head?_reverse] at hc
  exact h2 c hc

theorem digit_char_facts (c : Char) (h : c.isDigit = true) :
    pyIsSpace c = false ∧ (c == '$') = false ∧ (c == '#') = false := by
  refine ⟨?_, ?_, ?_⟩
  · unfold pyIsSpace
    by_cases e1 : c = ' '
    · subst e1; exact absurd h (by decide)
    · by_cases e2 : c = '\t'
      · subst e2; exact absurd h (by decide)
      · by_cases e3 : c = '\n'
        · subst e3; exact absurd h (by decide)
        · by_cases e4 : c = '\r'
          · subst e4; exact absurd h (by decide)
          · by_cases e5 : c = Char.ofNat 11
            · subst e5; exact absurd h (by decide)
            · by_cases e6 : c = Char.ofNat 12
              · subst e6; exact absurd h (by decide)
              · simp [e1, e2, e3, e4, e5, e6]
  · by_cases e : c = '$'
    · subst e; exact absurd h (by decide)
    · simp [e]
  · by_cases e : c = '#'
    · subst e; exact absurd h (by decide)
    · simp [e]

theorem errGlyph_facts (g : Char) (hg : g ∈ errGlyphClass) :
    pyIsSpace g = false ∧ g.isDigit = false ∧ (g == '#') = false ∧ (g == '$') = false ∧
      errGlyphClass.contains g = true := by
  simp only [errGlyphClass, List.mem_cons, List.not_mem_nil, or_false] at hg
  rcases hg with rfl | rfl | rfl | rfl | rfl | rfl | rfl | rfl | rfl | rfl | rfl | rfl | rfl <;>
    decide

theorem takeWhile_all_append (p : Char → Bool) (a b : List Char)
    (ha : ∀ c ∈ a, p c = true) (hb : ∀ c, b.head? = some c → p c = false) :
    (a ++ b).takeWhile p = a := by
  induction a with
  | nil =>
    rw [List.nil_append]
    cases b with
    | nil => rfl
    | cons x xs =>
      rw [List.takeWhile_cons, if_neg]
      simp [hb x rfl]
  | cons x xs ih =>
    have hx := ha x (List.mem_cons_self x xs)
    rw [List.cons_append, List.takeWhile_cons, if_pos (by simp [hx])]
    rw [ih (fun c hc => ha c (List.mem_cons_of_mem x hc))]

theorem dropWhile_all_append (p : Char → Bool) (a b : List Char)
    (ha : ∀ c ∈ a, p c = true) : (a ++ b).dropWhile p = b.dropWhile p := by
  induction a with
  | nil => rw [List.nil_append]
  | cons x xs ih =>
    have hx := ha x (List.mem_cons_self x xs)
    rw [List.cons_append, List.dropWhile_cons, if_pos (by simp [hx])]
    exact ih (fun c hc => ha c (List.mem_cons_of_mem x hc))

theorem pyIn_pair_false (x y : Char) (s : PyStr) (h : ∀ c ∈ s, (c == x) = false) :
    pyIn [x, y] s = false := by
  induction s with
  | nil => rfl
  | cons c cs ih =>
    have hc := h c (List.mem_cons_self c cs)
    have hpre : ([x, y].isPrefixOf (c :: cs)) = false := by
      simp only [List.isPrefixOf, Bool.and_eq_false_iff]
      left
      rw [beq_eq_false_iff_ne] at hc ⊢
      exact fun e => hc e.symm
    simp only [pyIn, hpre, Bool.false_or]
    exact ih (fun d hd => h d (List.mem_cons_of_mem c hd))

theorem pyIn_append_right (sep a s : PyStr) (h : pyIn sep s = true) :
    pyIn sep (a ++ s) = true := by
  induction a with
  | nil => simpa
  | cons c cs ih => simp [List.cons_append, pyIn, ih]

theorem pyRSplitOnce_none_of_not_in (sep : PyStr) :
    ∀ s, pyIn sep s = false → pyRSplitOnce sep s = none := by
  intro s
  induction s with
  | nil => intro _; rfl
  | cons c cs ih =>
    intro h
    simp only [pyIn, Bool.or_eq_false_iff] at h
    obtain ⟨h1, h2⟩ := h
    simp only [pyRSplitOnce, ih h2, h1, Bool.false_eq_true, if_false]

theorem pyRSplitOnce_hash (a0 b : PyStr) (ha : ∀ c ∈ a0, (c == '#') = false)
    (hb : ∀ c ∈ b, (c == '#') = false) :
    pyRSplitOnce hashSp (a0 ++ '#' :: ' ' :: b) = some (a0, b) := by
  induction a0 with
  | nil =>
    rw [List.nil_append]
    have hnone : pyRSplitOnce hashSp (' ' :: b) = none := by
      apply pyRSplitOnce_none_of_not_in
      unfold hashSp
      apply pyIn_pair_false
      intro c hc
      rcases List.mem_cons.1 hc with rfl | hc
      · decide
      · exact hb c hc
    rw [pyRSplitOnce, hnone]
    show (if hashSp.isPrefixOf ('#' :: ' ' :: b) then
        some (([] : PyStr), ('#' :: ' ' :: b).drop hashSp.length) else none) = some ([], b)
    rw [if_pos (by simp [hashSp, List.isPrefixOf])]
    simp [hashSp]
  | cons x xs ih =>
    rw [List.cons_append, pyRSplitOnce, ih (fun c hc => ha c (List.mem_cons_of_mem x hc))]

theorem errPat_status (d : PyStr) (g : Char) (hne : d ≠ [])
    (hdd : ∀ c ∈ d, c.isDigit = true) (hg : g ∈ errGlyphClass) :
    errPat (d ++ [' ', g]) = true := by
  obtain ⟨hgs, hgd, _, _, hcontains⟩ := errGlyph_facts g hg
  have h1 : (d ++ [' ', g]).dropWhile pyIsSpace = d ++ [' ', g] := by
    apply dropWhile_eq_self
    intro c hc
    cases d with
    | nil => exact absurd rfl hne
    | cons a as =>
      rw [List.cons_append, List.head?_cons] at hc
      injection hc with hc
      rw [← hc]
      exact (digit_char_facts a (hdd a (List.mem_cons_self a as))).1
  have h2 : (d ++ [' ', g]).takeWhile Char.isDigit = d := by
    apply takeWhile_all_append _ _ _ hdd
    intro c hc
    rw [List.head?_cons] at hc
    injection hc with hc
    rw [← hc]
    decide
  have h3 : (d ++ [' ', g]).dropWhile Char.isDigit = [' ', g] := by
    rw [dropWhile_all_append _ _ _ hdd, List.dropWhile_cons, if_neg (by decide)]
  have h4 : ([' ', g] : PyStr).dropWhile pyIsSpace = [g] := by
    rw [List.dropWhile_cons, if_pos (by decide), List.dropWhile_cons, if_neg (by simp [hgs])]
  simp only [errPat, h1, h2, h3, h4]
  rw [if_neg (by simp [List.isEmpty_iff, hne])]
  simpa using hg

theorem isEmptyPrompt_exit_status (d : PyStr) (g : Char)
    (hd : pyIsDigitStr d = true) (hg : g ∈ errGlyphClass) :
    isEmptyPrompt (lPromptM ++ ' ' :: (d ++ [' ', g])) = true := by
  obtain ⟨hgs, hgd, hgh, hgdol, _⟩ := errGlyph_facts g hg
  have hne : d ≠ [] := by
    intro h
    rw [h] at hd
    simp [pyIsDigitStr] at hd
  have hdd : ∀ c ∈ d, c.isDigit = true := by
    intro c hc
    have := hd
    unfold pyIsDigitStr at this
    simp only [Bool.and_eq_true, List.all_eq_true] at this
    exact this.2 c hc
  set L := lPromptM ++ ' ' :: (d ++ [' ', g]) with hLdef
  have hA : L.isEmpty = false := by
    simp [hLdef, List.isEmpty_iff, lPromptM]
  have hLlast : L.getLast? = some g := by
    have hre : L = (lPromptM ++ ' ' :: (d ++ [' '])) ++ [g] := by
      simp [hLdef]
    rw [hre, List.getLast?_concat]
  have hLhead : ∀ c, L.head? = some c → pyIsSpace c = false := by
    intro c hc
    rw [hLdef] at hc
    simp only [lPromptM, List.cons_append, List.head?_cons, Option.some.injEq] at hc
    rw [← hc]
    decide
  have hstrip : pyStrip L = L := by
    apply pyStrip_eq_self _ hLhead
    intro c hc
    rw [hLlast] at hc
    injection hc with hc
    rw [← hc]
    exact hgs
  have hne1 : ¬(L = lPromptM) := by
    intro h
    have := congrArg List.length h
    simp [hLdef, lPromptM] at this
  have hdrop : L.drop 3 =
      [Char.ofNat 0xE2, Char.ofNat 0x201D, Char.ofNat 0x20AC, '#'] ++ ' ' :: (d ++ [' ', g]) := by
    simp [hLdef, lPromptM]
  have hapstrip : pyStrip (L.drop 3) = L.drop 3 := by
    apply pyStrip_eq_self
    · intro c hc
      rw [hdrop] at hc
      simp only [List.cons_append, List.head?_cons, Option.some.injEq] at hc
      rw [← hc]
      decide
    · intro c hc
      have hre : L.drop 3 =
          ([Char.ofNat 0xE2, Char.ofNat 0x201D, Char.ofNat 0x20AC, '#'] ++ ' ' :: (d ++ [' '])) ++ [g] := by
        rw [hdrop]; simp
      rw [hre, List.getLast?_concat] at hc
      injection hc with hc
      rw [← hc]
      exact hgs
  have hc2 : (lPromptM.isPrefixOf (pyStrip L) &&
      ((pyStrip ((pyStrip L).drop 3)).isEmpty || errPat (pyStrip ((pyStrip L).drop 3)))) = false := by
    rw [hstrip, hapstrip, hdrop]
    have hap1 : (([Char.ofNat 0xE2, Char.ofNat 0x201D, Char.ofNat 0x20AC, '#'] ++
        ' ' :: (d ++ [' ', g])) : PyStr).isEmpty = false := by
      simp [List.isEmpty_iff]
    have hap2 : errPat ([Char.ofNat 0xE2, Char.ofNat 0x201D, Char.ofNat 0x20AC, '#'] ++
        ' ' :: (d ++ [' ', g])) = false := by
      have hform : (([Char.ofNat 0xE2, Char.ofNat 0x201D, Char.ofNat 0x20AC, '#'] ++
          ' ' :: (d ++ [' ', g])) : PyStr) =
          Char.ofNat 0xE2 :: ([Char.ofNat 0x201D, Char.ofNat 0x20AC, '#'] ++
            ' ' :: (d ++ [' ', g])) := by
        simp
      have hdw : (([Char.ofNat 0xE2, Char.ofNat 0x201D, Char.ofNat 0x20AC, '#'] ++
          ' ' :: (d ++ [' ', g])) : PyStr).dropWhile pyIsSpace =
          Char.ofNat 0xE2 :: ([Char.ofNat 0x201D, Char.ofNat 0x20AC, '#'] ++
            ' ' :: (d ++ [' ', g])) := by
        rw [hform, List.dropWhile_cons, if_neg (by decide)]
      have htw : (Char.ofNat 0xE2 :: ([Char.ofNat 0x201D, Char.ofNat 0x20AC, '#'] ++
          ' ' :: (d ++ [' ', g]))).takeWhile Char.isDigit = [] := by
        rw [List.takeWhile_cons, if_neg (by decide)]
      simp only [errPat, hdw, htw]
      simp
    rw [hap1, hap2]
    simp
  have hmemL : ∀ c ∈ L, (c == '$') = false ∧ (c == '#') = false ∨ c ∈ lPromptM ∨ c = ' ' ∨ c = g := by
    intro c hc
    rw [hLdef] at hc
    rw [List.mem_append] at hc
    rcases hc with hc | hc
    · right; left; exact hc
    · rcases List.mem_cons.1 hc with rfl | hc
      · right; right; left; rfl
      · rw [List.mem_append] at hc
        rcases hc with hc | hc
        · left
          have := digit_char_facts c (hdd c hc)
          exact ⟨this.2.1, this.2.2⟩
        · rcases List.mem_cons.1 hc with rfl | hc
          · right; right; left; rfl
          · rcases List.mem_cons.1 hc with rfl | hc
            · right; right; right; rfl
            · exact absurd hc (List.not_mem_nil c)
  have hdollar : pyIn dollarSp L = false := by
    unfold dollarSp
    apply pyIn_pair_false
    intro c hc
    rcases hmemL c hc with ⟨h1, _⟩ | hP | rfl | rfl
    · exact h1
    · simp only [lPromptM, List.mem_cons, List.not_mem_nil, or_false] at hP
      rcases hP with rfl | rfl | rfl | rfl | rfl | rfl | rfl <;> decide
    · decide
    · exact hgdol
  have hhashin : pyIn hashSp L = true := by
    have hre : L = [Char.ofNat 0xE2, Char.ofNat 0x201D, Char.ofNat 0x201D,
        Char.ofNat 0xE2, Char.ofNat 0x201D, Char.ofNat 0x20AC] ++ '#' :: ' ' :: (d ++ [' ', g]) := by
      simp [hLdef, lPromptM]
    rw [hre]
    apply pyIn_append_right
    simp [pyIn, hashSp, List.isPrefixOf]
  have hrsplit : pyRSplitOnce hashSp L = some ([Char.ofNat 0xE2, Char.ofNat 0x201D,
      Char.ofNat 0x201D, Char.ofNat 0xE2, Char.ofNat 0x201D, Char.ofNat 0x20AC], d ++ [' ', g]) := by
    have hre : L = [Char.ofNat 0xE2, Char.ofNat 0x201D, Char.ofNat 0x201D,
        Char.ofNat 0xE2, Char.ofNat 0x201D, Char.ofNat 0x20AC] ++ '#' :: ' ' :: (d ++ [' ', g]) := by
      simp [hLdef, lPromptM]
    rw [hre]
    apply pyRSplitOnce_hash
    · intro c hc
      simp only [List.mem_cons, List.not_mem_nil, or_false] at hc
      rcases hc with rfl | rfl | rfl | rfl | rfl | rfl <;> decide
    · intro c hc
      rw [List.mem_append] at hc
      rcases hc with hc | hc
      · exact (digit_char_facts c (hdd c hc)).2.2
      · rcases List.mem_cons.1 hc with rfl | hc
        · decide
        · rcases List.mem_cons.1 hc with rfl | hc
          · exact hgh
          · exact absurd hc (List.not_mem_nil c)
  have hbstrip : pyStrip (d ++ [' ', g]) = d ++ [' ', g] := by
    apply pyStrip_eq_self
    · intro c hc
      cases d with
      | nil => exact absurd rfl hne
      | cons a as =>
        rw [List.cons_append, List.head?_cons] at hc
        injection hc with hc
        rw [← hc]
        exact (digit_char_facts a (hdd a (List.mem_cons_self a as))).1
    · intro c hc
      have hre : d ++ [' ', g] = (d ++ [' ']) ++ [g] := by simp
      rw [hre, List.getLast?_concat] at hc
      injection hc with hc
      rw [← hc]
      exact hgs
  have herr : errPat (d ++ [' ', g]) = true := errPat_status d g hne hdd hg
  unfold isEmptyPrompt
  simp only [hA, Bool.false_eq_true, if_false]
  rw [if_neg (by rw [hstrip]; exact hne1)]
  simp only [hc2, Bool.false_eq_true, if_false]
  rw [hstrip, hdollar, hhashin, hrsplit]
  simp only [Bool.false_and, Bool.false_or, Bool.true_and]
  rw [hbstrip, herr]
  simp

theorem c5_counterexample :
    looksLikePrompt boxTopM = true ∧
    isEmptyPrompt boxTopM = false ∧
    filterLines [boxTopM, lPromptM] = [boxTopM] := by
  decide

/-- C5 (amended).  A line whose stripped text is exactly the bottom
prompt marker literal is classified as an empty prompt and is dropped by
the filter regardless of filter state (in particular when it is
immediately followed by another prompt line); a bottom-marker prompt
carrying only a numeric exit status and a single character of the glyph
character class is likewise classified as empty.  (A top box-marker
prompt line with no command is not dropped; see the counterexample.) -/
theorem c5_empty_prompt_amended :
    (∀ (l : PyStr) (s : Bool) (rest : List PyStr), pyStrip l = lPromptM →
      isEmptyPrompt (pyStrip l) = true ∧ filterFrom s (l :: rest) = filterFrom false rest) ∧
    (∀ (d : PyStr) (g : Char), pyIsDigitStr d = true → g ∈ errGlyphClass →
      isEmptyPrompt (lPromptM ++ ' ' :: (d ++ [' ', g])) = true) := by
  constructor
  · intro l s rest h
    have hemp : isEmptyPrompt (pyStrip l) = true := by rw [h]; decide
    refine ⟨hemp, ?_⟩
    have hctx : isContextCommand (pyStrip l) = false := by rw [h]; decide
    have hpr : looksLikePrompt (pyStrip l) = true := by rw [h]; decide
    have hne : (pyStrip l).isEmpty = false := by rw [h]; decide
    have heqs : eqsM.isPrefixOf (pyStrip l) = false := by rw [h]; decide
    simp only [filterFrom, hctx, Bool.false_eq_true, if_false]
    cases s
    · simp [hne, heqs, hemp]
    · simp [hpr, hemp]
  · intro d g hd hg
    exact isEmptyPrompt_exit_status d g hd hg

theorem c5_witness :
    (isEmptyPrompt (pyStrip (toPy "  " ++ lPromptM)) = true ∧
      filterFrom false ((toPy "  " ++ lPromptM) :: [lPromptM]) = filterFrom false [lPromptM]) ∧
    isEmptyPrompt (lPromptM ++ ' ' :: (toPy "130" ++ [' ', Char.ofNat 0x152])) = true :=
  ⟨c5_empty_prompt_amended.1 (toPy "  " ++ lPromptM) false [lPromptM] (by decide),
   c5_empty_prompt_amended.2 (toPy "130") (Char.ofNat 0x152) (by decide) (by decide)⟩

/-! ### Decimal representation lemmas -/

end Autolog
